import Mathlib

/-!
# Verification of the Pandemic X86 encoder/decoder core

Shallow embedding of the parts of the `Pandemic.X86` Python package that the
claims below talk about:

* `X86ByteStream.py` (`StreamObj`): pull byte source with the instruction
  length cap;
* `X86Internal.py` (`MemExpr.init`): memory-expression construction and the
  zero-displacement normalization;
* `X86TypeChecker.py` (`X86TypeChecker`): operand type-checking and the
  per-instruction reduction of `TypeCheckInfo` records;
* `X86EncodeTable.py` (`mnem_to_encodings`): candidate encodings (the `Add`
  and `Jmp` rows are embedded verbatim);
* `X86Encoder.py` (`X86Encoder.EncodeInstruction` and the emission visitors).

Machine integers are modelled as `Nat` (with explicit `% 2 ^ w` or
boundedness hypotheses where overflow matters).  Fallible code returns
`Option` or `Except`.  Definitions follow the Python source; the few places
where the repository's source is not available (the `X86.py` operand/
exception module, `X86ModRM.py`, `X86InternalOperandDescriptions.py`) or is
an `ExerciseError` stub are modelled from the specification and are marked
`Modelled from the spec:` in their doc comments.
-/

/-! ## Metadata enumerations (from `X86MetaData.py`) -/

/-- 8-bit general registers, ordinals 0..7 (`R8List` in `X86MetaData.py`). -/
inductive R8 | Al | Cl | Dl | Bl | Ah | Ch | Dh | Bh
  deriving DecidableEq, Repr

/-- 16-bit general registers, ordinals 0..7 (`R16List`). -/
inductive R16 | Ax | Cx | Dx | Bx | Sp | Bp | Si | Di
  deriving DecidableEq, Repr

/-- 32-bit general registers, ordinals 0..7 (`R32List`). -/
inductive R32 | Eax | Ecx | Edx | Ebx | Esp | Ebp | Esi | Edi
  deriving DecidableEq, Repr

/-- Segment registers, ordinals 0..5 (`SegList`). -/
inductive SegReg | ES | CS | SS | DS | FS | GS
  deriving DecidableEq, Repr

/-- Memory access sizes (`MSList`). -/
inductive MemSize | Mb | Mw | Md | Mf | Mq | Mt | Mdq
  deriving DecidableEq, Repr

/-- Group-1 prefixes (`PF1List`). -/
inductive PF1 | REP | REPNE | LOCK
  deriving DecidableEq, Repr

/-- Register ordinal 0..7, `Register.IntValue` for 8-bit registers. -/
def R8.IntValue : R8 → Nat
  | .Al => 0 | .Cl => 1 | .Dl => 2 | .Bl => 3
  | .Ah => 4 | .Ch => 5 | .Dh => 6 | .Bh => 7

/-- Register ordinal 0..7, `Register.IntValue` for 16-bit registers. -/
def R16.IntValue : R16 → Nat
  | .Ax => 0 | .Cx => 1 | .Dx => 2 | .Bx => 3
  | .Sp => 4 | .Bp => 5 | .Si => 6 | .Di => 7

/-- Register ordinal 0..7, `Register.IntValue` for 32-bit registers. -/
def R32.IntValue : R32 → Nat
  | .Eax => 0 | .Ecx => 1 | .Edx => 2 | .Ebx => 3
  | .Esp => 4 | .Ebp => 5 | .Esi => 6 | .Edi => 7

/-! ## Errors

Modelled from the spec: the exception classes live in `X86.py`, which is not
among the source files; §7 of the specification gives the error taxonomy and
says encoder domain violations surface as `InvalidInstruction` at the API
boundary, so the embedding collapses the failure of `X86ByteStream`,
`X86Encoder` and the encoder-side domain checks into one error value. -/
inductive X86Error | invalidInstruction
  deriving DecidableEq, Repr

/-! ## Byte stream (`X86ByteStream.py`, `StreamObj`)

The byte source is the overridable `GetByteInternal`; the embedding carries
it as a total function from positions to byte values, standing for
`self.bytes[self.pos]`. -/

/-- The state of `StreamObj`: the byte source plus the `pos`/`origpos`
position variables set up by `Init`. -/
structure StreamObj where
  bytes : Nat → Nat
  pos : Nat
  origpos : Nat

namespace StreamObj

/-- `StreamObj.SetPos`: `self.pos,self.origpos = ea,ea`. -/
def SetPos (s : StreamObj) (ea : Nat) : StreamObj :=
  { s with pos := ea, origpos := ea }

/-- `StreamObj.Byte`: raise `InvalidInstruction` when
`self.pos - self.origpos >= 16`, otherwise consume and return one byte. -/
def Byte (s : StreamObj) : Except X86Error (Nat × StreamObj) :=
  if s.pos - s.origpos ≥ 16 then .error .invalidInstruction
  else .ok (s.bytes s.pos, { s with pos := s.pos + 1 })

/-- `StreamObj.Word`: `b0 = Byte(); b1 = Byte(); (b1 << 8) | b0`. -/
def Word (s : StreamObj) : Except X86Error (Nat × StreamObj) := do
  let (b0, s) ← s.Byte
  let (b1, s) ← s.Byte
  .ok ((b1 <<< 8) ||| b0, s)

/-- `StreamObj.Dword`: `w0 = Word(); w1 = Word(); (w1 << 16) | w0`. -/
def Dword (s : StreamObj) : Except X86Error (Nat × StreamObj) := do
  let (w0, s) ← s.Word
  let (w1, s) ← s.Word
  .ok ((w1 <<< 16) ||| w0, s)

/-- Read `n` successive bytes with `Byte`, returning them in order. -/
def ReadBytes : StreamObj → Nat → Except X86Error (List Nat × StreamObj)
  | s, 0 => .ok ([], s)
  | s, n + 1 => do
    let (b, s) ← s.Byte
    let (bs, s) ← s.ReadBytes n
    .ok (b :: bs, s)

end StreamObj

/-! ## Memory expressions (`X86Internal.py`, `MemExpr.init`)

The `Mem16`/`Mem32` subclasses themselves are declared in the absent
`X86.py`; their fields and invariants follow §3 of the specification
(`Mem16 { seg, size, base∈R16∪∅, index∈R16∪∅, disp∈u16∪∅ }`, `Mem32`
with scale).  Equality on the Lean structures is structural, matching the
spec's "equality is structural on all fields".  The displacement
normalization below is `MemExpr.init` from the source:
`self._disp = GuardedInteger(None if disp == None or disp == 0 else disp, mask)`. -/

/-- A 16-bit memory expression value. -/
structure Mem16 where
  seg : SegReg
  size : MemSize
  base : Option R16
  index : Option R16
  disp : Option Nat
  deriving DecidableEq, Repr

/-- A 32-bit memory expression value. -/
structure Mem32 where
  seg : SegReg
  size : MemSize
  base : Option R32
  index : Option R32
  scale : Nat
  disp : Option Nat
  deriving DecidableEq, Repr

/-- `MemExpr.init` displacement normalization:
`None if disp == None or disp == 0 else disp`. -/
def normDisp (disp : Option Nat) : Option Nat :=
  if disp = none ∨ disp = some 0 then none else disp

/-- Constructing a `Mem16` runs `MemExpr.init`, normalizing the
displacement. -/
def mkMem16 (seg : SegReg) (size : MemSize) (base index : Option R16)
    (disp : Option Nat) : Mem16 :=
  { seg := seg, size := size, base := base, index := index,
    disp := normDisp disp }

/-- Constructing a `Mem32` runs `MemExpr.init`, normalizing the
displacement. -/
def mkMem32 (seg : SegReg) (size : MemSize) (base index : Option R32)
    (scale : Nat) (disp : Option Nat) : Mem32 :=
  { seg := seg, size := size, base := base, index := index,
    scale := scale, disp := normDisp disp }

/-- Default segment of a 16-bit memory expression: `SS` when the base is
`SP`/`BP`, else `DS` (spec §3). -/
def Mem16.DefaultSeg (m : Mem16) : SegReg :=
  match m.base with
  | some .Sp => .SS
  | some .Bp => .SS
  | _ => .DS

/-- Default segment of a 32-bit memory expression: `SS` when the base is
`ESP`/`EBP`, else `DS` (spec §3). -/
def Mem32.DefaultSeg (m : Mem32) : SegReg :=
  match m.base with
  | some .Esp => .SS
  | some .Ebp => .SS
  | _ => .DS

/-! ## Operands

Modelled from the spec: the concrete operand classes (`Gb`/`Gw`/`Gd`
registers, `Ib`/`Iw`/`Id` immediates, `Mem16`/`Mem32`, far pointers,
`JccTarget`) are declared in `X86.py`, which is not among the source files;
their shapes follow §3 of the specification and their uses in
`X86Yacc.py`/`X86TypeChecker.py`.  Immediate and address values are carried
as `Nat`; guardedness (a value never exceeds its width) appears as
boundedness hypotheses in the theorems that need it. -/
inductive Operand
  | Gb (r : R8)
  | Gw (r : R16)
  | Gd (r : R32)
  | Ib (v : Nat)
  | Iw (v : Nat)
  | Id (v : Nat)
  | M16 (m : Mem16)
  | M32 (m : Mem32)
  | JccT (taken nottaken : Nat)
  | AP16 (seg off : Nat)
  | AP32 (seg off : Nat)
  deriving DecidableEq, Repr

/-- The register classes that occur as `GPart`/`RegOrMem` archetypes in the
embedded table rows. -/
inductive RegClass | Gb | Gw | Gd
  deriving DecidableEq, Repr

/-- The register class of an operand (`type(op)` on the Python side), when
the operand is a general register. -/
def classOf : Operand → Option RegClass
  | .Gb _ => some .Gb
  | .Gw _ => some .Gw
  | .Gd _ => some .Gd
  | _ => none

/-- `Register.IntValue` lifted to register operands (0 elsewhere; the
encoder only calls it on registers). -/
def Operand.IntValue : Operand → Nat
  | .Gb r => r.IntValue
  | .Gw r => r.IntValue
  | .Gd r => r.IntValue
  | _ => 0

/-- Immediate archetypes held by `ImmEnc` nodes. -/
inductive ImmArch | Ib | Iw | Id
  deriving DecidableEq, Repr

/-- Immediate archetypes held by `SignedImm` nodes (the table only uses the
16- and 32-bit sign-extension forms). -/
inductive SExtArch | Iw | Id
  deriving DecidableEq, Repr

/-- Far-pointer archetypes held by `ImmEnc` nodes. -/
inductive FarArch | AP16 | AP32
  deriving DecidableEq, Repr

/-! ## AOTDL (`X86TypeLang`)

Modelled from the spec: the AOTDL node classes live in the absent
`X86TypeLang`/`X86InternalOperandDescriptions` modules; the grammar below is
§4.3 of the specification.  `ImmEnc`'s archetype field is split by the class
of the held archetype, exactly as `MakeMethodName` splits it in
`X86TypeChecker.py` and `X86Encoder.py` (`visit_Immediate_MemExpr`,
`visit_Immediate_FarTarget`, `visit_Immediate_Immediate`,
`visit_Immediate_JccTarget`). -/
inductive AOTDL
  | Exact (v : Operand)
  | ExactSeg (v : Operand)
  | GPart (c : RegClass)
  | RegOrMem (reg : Option RegClass) (mem : Option MemSize)
  | ImmEncImm (a : ImmArch)
  | ImmEncMem (size : MemSize)
  | ImmEncFar (a : FarArch)
  | ImmEncJcc
  | SignedImm (a : SExtArch)
  | SizePrefix (yes no : AOTDL)
  | AddrPrefix (yes no : AOTDL)
  deriving DecidableEq, Repr

/-! ## Type checker (`X86TypeChecker.py`) -/

/-- `TypeCheckInfo`: the override requirements reported for one operand
(`sizeo`/`addro`/`sego`, any of which may be `None`). -/
structure TypeCheckInfo where
  sizeo : Option Bool
  addro : Option Bool
  sego : Option SegReg
  deriving DecidableEq, Repr

/-- `MATCHES()`: an empty `TypeCheckInfo`. -/
def MATCHES : TypeCheckInfo := ⟨none, none, none⟩

/-- The segment of a memory operand compared against its default segment;
`some seg` when a segment-override prefix is required, `none` otherwise.
Modelled from the spec: the body of `visit_RegOrMem` past the size test is
an `ExerciseError` stub; §4.5 fixes the contract (report the segment
override iff `op.seg ≠ op.default_seg()`). -/
def memSegOverride16 (m : Mem16) : Option SegReg :=
  if m.seg ≠ m.DefaultSeg then some m.seg else none

/-- 32-bit counterpart of `memSegOverride16`. -/
def memSegOverride32 (m : Mem32) : Option SegReg :=
  if m.seg ≠ m.DefaultSeg then some m.seg else none

/-- The per-node type check, `X86TypeChecker.visit` dispatched by
`MakeMethodName`.  The guards are the ones visible in
`X86TypeChecker.py`; where a success branch is an `ExerciseError` stub the
returned `TypeCheckInfo` is modelled from the spec (§4.3, §4.5): `Exact`,
`GPart`, register `RegOrMem` and immediate matches impose nothing; the
memory branch reports the segment override when the segment is not the
default and the address override `true` iff the operand is a `Mem16`
(`false` for a `Mem32`); `SizePrefix`/`AddrPrefix` try the `yes` branch
first and stamp the corresponding field `true`, else the `no` branch with
`false`. -/
def tcVisit (checkSizes : Bool) (op : Operand) : AOTDL → Option TypeCheckInfo
  | .Exact v => if op = v then some MATCHES else none
  | .ExactSeg v =>
    if op = v then some MATCHES
    else
      match op, v with
      | .M16 om, .M16 vm =>
        if ({ vm with seg := om.seg } : Mem16) = om then
          some { MATCHES with sego := some om.seg }
        else none
      | .M32 om, .M32 vm =>
        if ({ vm with seg := om.seg } : Mem32) = om then
          some { MATCHES with sego := some om.seg }
        else none
      | _, _ => none
  | .GPart c => if classOf op = some c then some MATCHES else none
  | .RegOrMem r m =>
    if r.isSome ∧ classOf op = r then some MATCHES
    else
      match m, op with
      | some ms, .M16 mm =>
        if ms = mm.size ∨ checkSizes = false then
          some { sizeo := none, addro := some true, sego := memSegOverride16 mm }
        else none
      | some ms, .M32 mm =>
        if ms = mm.size ∨ checkSizes = false then
          some { sizeo := none, addro := some false, sego := memSegOverride32 mm }
        else none
      | _, _ => none
  | .ImmEncImm a =>
    match a, op with
    | .Ib, .Ib _ => some MATCHES
    | .Iw, .Iw _ => some MATCHES
    | .Id, .Id _ => some MATCHES
    | _, _ => none
  | .ImmEncMem ms =>
    match op with
    | .M16 mm =>
      if mm.base = none ∧ mm.index = none ∧ ms = mm.size then
        some { sizeo := none, addro := some true, sego := memSegOverride16 mm }
      else none
    | .M32 mm =>
      if mm.base = none ∧ mm.index = none ∧ ms = mm.size then
        some { sizeo := none, addro := some false, sego := memSegOverride32 mm }
      else none
    | _ => none
  | .ImmEncFar a =>
    match a, op with
    | .AP16, .AP16 _ _ => some MATCHES
    | .AP32, .AP32 _ _ => some MATCHES
    | _, _ => none
  | .ImmEncJcc =>
    match op with
    | .JccT _ _ => some MATCHES
    | _ => none
  | .SignedImm a =>
    match a, op with
    | .Iw, .Iw v => if v < 0x80 ∨ v ≥ 0xFF80 then some MATCHES else none
    | .Id, .Id v => if v < 0x80 ∨ v ≥ 0xFFFFFF80 then some MATCHES else none
    | _, _ => none
  | .SizePrefix y n =>
    match tcVisit checkSizes op y with
    | some t => some { t with sizeo := some true }
    | none =>
      match tcVisit checkSizes op n with
      | some t => some { t with sizeo := some false }
      | none => none
  | .AddrPrefix y n =>
    match tcVisit checkSizes op y with
    | some t => some { t with addro := some true }
    | none =>
      match tcVisit checkSizes op n with
      | some t => some { t with addro := some false }
      | none => none

/-! ## Abstract operand types (AOT) -/

/-- The abstract operand types used by the embedded table rows plus the
three size-lenient types.  The full enumeration lives in the absent
`X86InternalOperand.py`; this is the fragment the claims exercise. -/
inductive AOT
  | OEb | OGb | OEv | OGv | OAL | OrAX | OIb | OIz | OIbv | OJz
  | OFPEnv | OFPEnvLow | OSimdState | OMd | OMq
  deriving DecidableEq, Repr

/-- `X86TypeChecker.lenient_sizes` (source line 100): for these abstract
operand types the memory-size comparison is skipped. -/
def lenient_sizes : List AOT := [.OFPEnv, .OFPEnvLow, .OSimdState]

/-- Modelled from the spec: `AOTtoAOTDL` lives in the absent
`X86InternalOperandDescriptions.py`.  Each AOT compiles to its §4.3 AOTDL
node: `Eb` is r/m8, `Gb` reg8, `Ev`/`Gv`/`Iz`/`rAX` are 16/32-bit forms
switched by the operand-size prefix (`yes` = 16-bit branch, since 32-bit
code needs `66` for the 16-bit form), `Ibv` is the imm8-sign-extended form
(`SignedImm` of the 16/32-bit archetype), `Jz` a near-jump target, and
`FPEnv`/`FPEnvLow`/`SimdState` are memory-only operands whose size tag is
not encoded in the opcode (the tag recorded here is immaterial: `check`
skips the size comparison for them). -/
def AOTtoAOTDL : AOT → AOTDL
  | .OEb => .RegOrMem (some .Gb) (some .Mb)
  | .OGb => .GPart .Gb
  | .OEv => .SizePrefix (.RegOrMem (some .Gw) (some .Mw))
      (.RegOrMem (some .Gd) (some .Md))
  | .OGv => .SizePrefix (.GPart .Gw) (.GPart .Gd)
  | .OAL => .Exact (.Gb .Al)
  | .OrAX => .SizePrefix (.Exact (.Gw .Ax)) (.Exact (.Gd .Eax))
  | .OIb => .ImmEncImm .Ib
  | .OIz => .SizePrefix (.ImmEncImm .Iw) (.ImmEncImm .Id)
  | .OIbv => .SizePrefix (.SignedImm .Iw) (.SignedImm .Id)
  | .OJz => .ImmEncJcc
  | .OFPEnv => .RegOrMem none (some .Mb)
  | .OFPEnvLow => .RegOrMem none (some .Mb)
  | .OSimdState => .RegOrMem none (some .Mb)
  | .OMd => .RegOrMem none (some .Md)
  | .OMq => .RegOrMem none (some .Mq)

/-- `X86TypeChecker.check`: set `check_sizes = not aop in lenient_sizes`,
then visit the operand against `AOTtoAOTDL[aop]`. -/
def check (aop : AOT) (opnd : Operand) : Option TypeCheckInfo :=
  tcVisit (!lenient_sizes.contains aop) opnd (AOTtoAOTDL aop)

/-! ## Instructions -/

/-- The mnemonics of the embedded encode-table fragment. -/
inductive Mnem | Add | Jmp
  deriving DecidableEq, Repr

/-- An instruction value: group-1 prefix, mnemonic, operand list
(`X86.Instruction`, modelled from the spec §3; `GetOp`/`NumOps` are list
access and length). -/
structure Instruction where
  pf : Option PF1
  mnem : Mnem
  ops : List Operand
  deriving DecidableEq, Repr

/-! ## Instruction-level type checking (`TypeCheckInstruction_exn`) -/

/-- `opcheck` inside `reduce_typeinfo`: `None` yields to the other side,
equal concrete values merge, distinct concrete values raise
`X86TypeCheckError`. -/
def opcheck {α : Type} [DecidableEq α] :
    Option α → Option α → Except Unit (Option α)
  | none, b => .ok b
  | some x, none => .ok (some x)
  | some x, some y => if x = y then .ok (some x) else .error ()

/-- `reduce_typeinfo`: accumulate override information field by field
(`sizeo`, then `addro`, then `sego`), raising on the first conflict. -/
def reduce_typeinfo (t1 t2 : TypeCheckInfo) : Except Unit TypeCheckInfo := do
  let s ← opcheck t1.sizeo t2.sizeo
  let a ← opcheck t1.addro t2.addro
  let g ← opcheck t1.sego t2.sego
  pure ⟨s, a, g⟩

/-- The loop of `TypeCheckInstruction_exn`: check each operand against its
abstract operand type and reduce the resulting `TypeCheckInfo` into the
accumulator `last` (`last_ti` in the source, starting out non-existent). -/
def tcFold : List AOT → List Operand → Option TypeCheckInfo →
    Except Unit TypeCheckInfo
  | [], _, some t => .ok t
  | [], _, none => .error ()
  | a :: as_, os, last =>
    match os with
    | [] => .error ()
    | o :: os =>
      match check a o with
      | none => .error ()
      | some ti =>
        match last with
        | none => tcFold as_ os (some ti)
        | some lt =>
          match reduce_typeinfo lt ti with
          | .error e => .error e
          | .ok t => tcFold as_ os (some t)

/-- `TypeCheckInstruction_exn`: fail when the operand counts differ, return
no overrides for a zero-operand encoding, otherwise reduce the per-operand
`TypeCheckInfo` records and report
`(last_ti.sizeo == True, last_ti.addro == True, last_ti.sego)`. -/
def TypeCheckInstruction_exn (instr : Instruction) (aops : List AOT) :
    Except Unit (Bool × Bool × Option SegReg) :=
  if aops.length ≠ instr.ops.length then .error ()
  else if aops.length = 0 then .ok (false, false, none)
  else
    match tcFold aops instr.ops none with
    | .error e => .error e
    | .ok t => .ok (t.sizeo == some true, t.addro == some true, t.sego)

/-- `TypeCheckInstruction_opt`: `TypeCheckInstruction_exn` with the
exception caught and turned into `None`. -/
def TypeCheckInstruction_opt (instr : Instruction) (aops : List AOT) :
    Option (Bool × Bool × Option SegReg) :=
  (TypeCheckInstruction_exn instr aops).toOption

/-! ## ModR/M codec

Modelled from the spec: `X86ModRM.py` is not among the source files; the
encoding rules below are §4.2 of the specification (16-bit `(base,index)`
patterns, displacement-only escapes, SIB, the smallest `MOD` that
represents the displacement, and the forced zero `disp8` for `[BP]` and
`EBP`/`ESP` bases). -/

/-- `little_endian_bytes(imm, n)` from `X86ModRM.py`: the `n` low bytes of
`imm`, least significant first. -/
def little_endian_bytes (imm : Nat) : Nat → List Nat
  | 0 => []
  | n + 1 => imm % 256 :: little_endian_bytes (imm / 256) n

/-- A ModR/M (+SIB +displacement) object under construction.  `is16`
records whether it is a `ModRM16` or a `ModRM32`. -/
structure ModRM where
  is16 : Bool
  md : Nat
  ggg : Nat
  rm : Nat
  sib : Option Nat
  dispBytes : List Nat
  deriving DecidableEq, Repr

/-- A fresh `ModRM16()` or `ModRM32()`. -/
def initModRM (is16 : Bool) : ModRM := ⟨is16, 0, 0, 0, none, []⟩

/-- `Encode()`: the ModR/M byte `MOD|GGG|R/M`, then the SIB byte when
present, then the displacement bytes. -/
def ModRM.Encode (m : ModRM) : List Nat :=
  (m.md * 64 + m.ggg * 8 + m.rm) ::
    ((match m.sib with | some b => [b] | none => []) ++ m.dispBytes)

/-- Does a 16-bit displacement fit in a signed 8-bit value? -/
def fitsS8w (d : Nat) : Bool := d < 0x80 || 0xFF80 ≤ d

/-- Does a 32-bit displacement fit in a signed 8-bit value? -/
def fitsS8d (d : Nat) : Bool := d < 0x80 || 0xFFFFFF80 ≤ d

/-- The `R/M` field for the eight legal 16-bit `(base,index)` patterns
`[BX+SI],[BX+DI],[BP+SI],[BP+DI],[SI],[DI],[BP],[BX]`; `none` for a
malformed address expression. -/
def rmOfParts16 : Option R16 → Option R16 → Option Nat
  | some .Bx, some .Si => some 0
  | some .Bx, some .Di => some 1
  | some .Bp, some .Si => some 2
  | some .Bp, some .Di => some 3
  | some .Si, none => some 4
  | some .Di, none => some 5
  | some .Bp, none => some 6
  | some .Bx, none => some 7
  | _, _ => none

/-- `ModRM16.EncodeFromParts`: no base and no index is the
displacement-only escape `MOD=00,R/M=110`; a bare `[BP]` (pattern 6) forces
a zero `disp8`; otherwise the smallest `MOD` representing the displacement
is chosen. -/
def encodeFromParts16 (m : ModRM) (base index : Option R16)
    (disp : Option Nat) : Except X86Error ModRM :=
  match base, index with
  | none, none =>
    .ok { m with md := 0, rm := 6, sib := none,
                 dispBytes := little_endian_bytes (disp.getD 0) 2 }
  | _, _ =>
    match rmOfParts16 base index with
    | none => .error .invalidInstruction
    | some rm =>
      match disp with
      | none =>
        if rm = 6 then
          .ok { m with md := 1, rm := rm, sib := none, dispBytes := [0] }
        else
          .ok { m with md := 0, rm := rm, sib := none, dispBytes := [] }
      | some d =>
        if fitsS8w d then
          .ok { m with md := 1, rm := rm, sib := none, dispBytes := [d % 256] }
        else
          .ok { m with md := 2, rm := rm, sib := none,
                       dispBytes := little_endian_bytes d 2 }

/-- `ModRM32.EncodeFromParts`: `MOD=00,R/M=101` is the displacement-only
escape; an index (or an `ESP` base) requires SIB, where `base=101 ∧ MOD=00`
means no base with `disp32` and `index=100` means no index; an `EBP`/`ESP`
base with no displacement still emits a zero `disp8`; `ESP` is not a legal
index. -/
def encodeFromParts32 (m : ModRM) (base index : Option R32) (scale : Nat)
    (disp : Option Nat) : Except X86Error ModRM :=
  if index = some .Esp then .error .invalidInstruction
  else
    match base, index with
    | none, none =>
      .ok { m with md := 0, rm := 5, sib := none,
                   dispBytes := little_endian_bytes (disp.getD 0) 4 }
    | none, some i =>
      .ok { m with md := 0, rm := 4,
                   sib := some (scale * 64 + i.IntValue * 8 + 5),
                   dispBytes := little_endian_bytes (disp.getD 0) 4 }
    | some b, _ =>
      let useSib : Bool := index.isSome || b == .Esp
      let sib : Option Nat :=
        if useSib then
          some (scale * 64 + (match index with
            | some i => i.IntValue
            | none => 4) * 8 + b.IntValue)
        else none
      let rm := if useSib then 4 else b.IntValue
      match disp with
      | none =>
        if b = .Ebp ∨ b = .Esp then
          .ok { m with md := 1, rm := rm, sib := sib, dispBytes := [0] }
        else
          .ok { m with md := 0, rm := rm, sib := sib, dispBytes := [] }
      | some d =>
        if fitsS8d d then
          .ok { m with md := 1, rm := rm, sib := sib, dispBytes := [d % 256] }
        else
          .ok { m with md := 2, rm := rm, sib := sib,
                       dispBytes := little_endian_bytes d 4 }

/-! ## Encode table (`X86EncodeTable.py`) -/

/-- The treatment an encoding requires while converting an instruction to
bytes: `Ordinary` (no special treatment), `Native16` (forces the operand
size prefix), `ModRMGroup` (sets the ModR/M `GGG` field to the group
ordinal). -/
inductive EncMethod
  | Ordinary
  | Native16
  | ModRMGroup (ggg : Nat)
  deriving DecidableEq, Repr

/-- `X86Enc`: stem bytes plus abstract operand type list plus the encoding
method (the source expresses the method as the subclass). -/
structure X86Enc where
  method : EncMethod
  bytes : List Nat
  ops : List AOT
  deriving DecidableEq, Repr

/-- Constructor matching the source's `Ordinary(bytes, ops)`. -/
def Ordinary (bytes : List Nat) (ops : List AOT) : X86Enc :=
  ⟨.Ordinary, bytes, ops⟩

/-- Constructor matching the source's `ModRMGroup(ggg, bytes, ops)`. -/
def ModRMGroup (ggg : Nat) (bytes : List Nat) (ops : List AOT) : X86Enc :=
  ⟨.ModRMGroup ggg, bytes, ops⟩

/-- `eEbGb` in `X86EncodeTable.py`. -/
def eEbGb : List AOT := [.OEb, .OGb]
/-- `eEvGv`. -/
def eEvGv : List AOT := [.OEv, .OGv]
/-- `eGbEb`. -/
def eGbEb : List AOT := [.OGb, .OEb]
/-- `eGvEv`. -/
def eGvEv : List AOT := [.OGv, .OEv]
/-- `eALIb`. -/
def eALIb : List AOT := [.OAL, .OIb]
/-- `erAXIz`. -/
def erAXIz : List AOT := [.OrAX, .OIz]
/-- `eEbIb`. -/
def eEbIb : List AOT := [.OEb, .OIb]
/-- `eEvIz`. -/
def eEvIz : List AOT := [.OEv, .OIz]
/-- `eEvIbv`. -/
def eEvIbv : List AOT := [.OEv, .OIbv]
/-- `eEv`. -/
def eEv : List AOT := [.OEv]

/-- `mnem_to_encodings`, restricted to the embedded mnemonics.  The `Add`
and `Jmp` rows are the source rows verbatim, in source order: for `Add`,
`ModRMGroup(0,[0x81],eEvIz)` stands immediately before
`ModRMGroup(0,[0x83],eEvIbv)`. -/
def mnem_to_encodings : Mnem → List X86Enc
  | .Add =>
    [Ordinary [0x00] eEbGb,
     Ordinary [0x01] eEvGv,
     Ordinary [0x02] eGbEb,
     Ordinary [0x03] eGvEv,
     Ordinary [0x04] eALIb,
     Ordinary [0x05] erAXIz,
     ModRMGroup 0 [0x80] eEbIb,
     ModRMGroup 0 [0x81] eEvIz,
     ModRMGroup 0 [0x83] eEvIbv]
  | .Jmp =>
    [Ordinary [0xE9] [.OJz],
     ModRMGroup 4 [0xFF] eEv]

/-! ## Encoder (`X86Encoder.py`) -/

/-- `PrefixOfSeg`: segment to prefix byte (source lines 14-20). -/
def PrefixOfSeg : SegReg → Nat
  | .CS => 0x2E
  | .SS => 0x36
  | .DS => 0x3E
  | .ES => 0x26
  | .FS => 0x64
  | .GS => 0x65

/-- Group-1 prefix bytes `F3`/`F2`/`F0` (spec glossary; the assignment of
the instruction's group-1 prefix into the encoder is part of an exercise
stub in the source). -/
def PrefixOfPF1 : PF1 → Nat
  | .REP => 0xF3
  | .REPNE => 0xF2
  | .LOCK => 0xF0

/-- The `X86Encoder` transient state: group-1 prefix byte, stem, segment
prefix, address/size prefix flags, accumulated immediate bytes, and the
lazily materialized ModR/M object (`_modrm`). -/
structure EncState where
  group1pfx : Option Nat
  stem : List Nat
  segpfx : Option SegReg
  addrpfx : Bool
  sizepfx : Bool
  immediates : List Nat
  modrm : Option ModRM
  deriving DecidableEq, Repr

/-- `X86Encoder.Reset()`: the cleared state. -/
def Reset : EncState := ⟨none, [], none, false, false, [], none⟩

namespace EncState

/-- The `ModRM` property: a `ModRM16` when the address-size prefix is
required, else a `ModRM32`, created on first access. -/
def modRM (st : EncState) : ModRM := st.modrm.getD (initModRM st.addrpfx)

/-- Writing through the `ModRM` property stores the materialized object. -/
def withModRM (st : EncState) (f : ModRM → ModRM) : EncState :=
  { st with modrm := some (f st.modRM) }

/-- Storing an already-built `ModRM` object. -/
def setModRM (st : EncState) (m : ModRM) : EncState :=
  { st with modrm := some m }

/-- `X86Encoder.AppendImmediate`: extend `immediates` with the `n`-byte
little-endian form of `imm`. -/
def AppendImmediate (st : EncState) (imm n : Nat) : EncState :=
  { st with immediates := st.immediates ++ little_endian_bytes imm n }

end EncState

/-- `X86Encoder.visit_Immediate_JccTarget` (source lines 294-318, not a
stub): reject an address-size-prefixed encoding whose destination exceeds
16 bits; otherwise predict the instruction length as segment prefix +
operand-size prefix + address-size prefix + stem + 4 (the long-form `Jz`
immediate), compute `(dest - (addr + instrlen)) & 0xFFFFFFFF`, and append
it as 2 bytes under the address-size prefix, else 4. -/
def visit_Immediate_JccTarget (st : EncState) (addr taken : Nat) :
    Except X86Error EncState :=
  if st.addrpfx ∧ taken > 0xFFFF then .error .invalidInstruction
  else
    let instrlen := (if st.segpfx ≠ none then 1 else 0)
      + (if st.sizepfx then 1 else 0)
      + (if st.addrpfx then 1 else 0) + st.stem.length + 4
    let displacement :=
      (((taken : Int) - ((addr : Int) + (instrlen : Int))) % (2 ^ 32 : Int)).toNat
    .ok (st.AppendImmediate displacement (if st.addrpfx then 2 else 4))

/-- The value held by an immediate operand (the `value` member). -/
def immValue : Operand → Nat
  | .Ib v => v
  | .Iw v => v
  | .Id v => v
  | _ => 0

/-- `X86Enc.Encode`: the per-method side effect on the encoder (the bodies
are exercise stubs; the behavior is each stub's docstring): `Ordinary`
leaves the encoder alone, `Native16` sets `sizepfx`, `ModRMGroup` writes
the group ordinal into the ModR/M `GGG` field (materializing the ModR/M
object through the property). -/
def X86Enc.Encode (e : X86Enc) (st : EncState) : EncState :=
  match e.method with
  | .Ordinary => st
  | .Native16 => { st with sizepfx := true }
  | .ModRMGroup g => st.withModRM (fun m => { m with ggg := g })

/-- The emission visitor (`X86Encoder.visit` dispatched by
`MakeMethodName`).  `visit_Immediate_JccTarget` is real source code; the
other arms are exercise stubs modelled from their docstrings: `Exact` and
`ExactSeg` emit nothing; `GPart` stores the register ordinal in `GGG`;
`RegOrMem` stores `MOD=3,R/M=ordinal` for a register and calls
`EncodeFromParts` for a memory; `ImmEnc` of a moffs writes the
displacement at the address width, of a far target the offset then the
segment, of an immediate archetype the operand's value at the archetype
width; `SignedImm` writes the value as one byte (`visit_Immediate_Ib`);
the prefix nodes visit the branch selected by the already-decided
prefix flag. -/
def encVisit (addr : Nat) (st : EncState) (op : Operand) :
    AOTDL → Except X86Error EncState
  | .Exact _ => .ok st
  | .ExactSeg _ => .ok st
  | .GPart _ => .ok (st.withModRM (fun m => { m with ggg := op.IntValue }))
  | .RegOrMem _ _ =>
    match op with
    | .M16 mm => do
      .ok (st.setModRM (← encodeFromParts16 st.modRM mm.base mm.index mm.disp))
    | .M32 mm => do
      .ok (st.setModRM
        (← encodeFromParts32 st.modRM mm.base mm.index mm.scale mm.disp))
    | _ => .ok (st.withModRM (fun m => { m with md := 3, rm := op.IntValue }))
  | .ImmEncMem _ =>
    match op with
    | .M16 mm => .ok (st.AppendImmediate (mm.disp.getD 0) 2)
    | .M32 mm => .ok (st.AppendImmediate (mm.disp.getD 0) 4)
    | _ => .error .invalidInstruction
  | .ImmEncFar _ =>
    match op with
    | .AP16 sg off => .ok ((st.AppendImmediate off 2).AppendImmediate sg 2)
    | .AP32 sg off => .ok ((st.AppendImmediate off 4).AppendImmediate sg 2)
    | _ => .error .invalidInstruction
  | .ImmEncImm a =>
    match a with
    | .Ib => .ok (st.AppendImmediate (immValue op) 1)
    | .Iw => .ok (st.AppendImmediate (immValue op) 2)
    | .Id => .ok (st.AppendImmediate (immValue op) 4)
  | .ImmEncJcc =>
    match op with
    | .JccT taken _ => visit_Immediate_JccTarget st addr taken
    | _ => .error .invalidInstruction
  | .SignedImm _ => .ok (st.AppendImmediate (immValue op) 1)
  | .SizePrefix y n =>
    if st.sizepfx then encVisit addr st op y else encVisit addr st op n
  | .AddrPrefix y n =>
    if st.addrpfx then encVisit addr st op y else encVisit addr st op n

/-- The operand-emission loop of `EncodeInstruction`: visit each operand
with the AOTDL of its abstract operand type. -/
def encVisitOps (addr : Nat) :
    EncState → List Operand → List AOT → Except X86Error EncState
  | st, [], [] => .ok st
  | st, o :: os, a :: as_ => do
    encVisitOps addr (← encVisit addr st o (AOTtoAOTDL a)) os as_
  | _, _, _ => .error .invalidInstruction

/-- The candidate loop of `EncodeInstruction`: the first encoding in the
table row whose operand tuple type-checks, with the override triple the
type checker reported. -/
def firstMatch (instr : Instruction) :
    List X86Enc → Option (X86Enc × (Bool × Bool × Option SegReg))
  | [] => none
  | e :: es =>
    match TypeCheckInstruction_opt instr e.ops with
    | none => firstMatch instr es
    | some v => some (e, v)

/-- The final byte-list assembly of `EncodeInstruction` (source lines
102-118), append by append: segment prefix, `0x67`, `0x66`, group-1
prefix, stem, ModR/M when materialized, immediates when non-empty. -/
def assemble (st : EncState) : List Nat :=
  let enc : List Nat := []
  let enc := match st.segpfx with
    | some s => enc ++ [PrefixOfSeg s]
    | none => enc
  let enc := if st.addrpfx then enc ++ [0x67] else enc
  let enc := if st.sizepfx then enc ++ [0x66] else enc
  let enc := match st.group1pfx with
    | some b => enc ++ [b]
    | none => enc
  let enc := enc ++ st.stem
  let enc := match st.modrm with
    | some m => enc ++ m.Encode
    | none => enc
  let enc := if st.immediates ≠ [] then enc ++ st.immediates else enc
  enc

/-- The encoder state at the start of a matched candidate's emission: the
override triple from the type checker stored into the context, the stem
bytes copied, the group-1 prefix byte taken from the instruction (spec
§4.5 step 3; the visible source only appends `group1pfx` when set), and
the encoding method's side effect applied. -/
def initState (instr : Instruction) (e : X86Enc)
    (v : Bool × Bool × Option SegReg) : EncState :=
  e.Encode { Reset with
    sizepfx := v.1, addrpfx := v.2.1, segpfx := v.2.2,
    stem := e.bytes, group1pfx := instr.pf.map PrefixOfPF1 }

/-- `X86Encoder.EncodeInstruction`: reset, walk the mnemonic's candidate
encodings in table order, take the first whose operands type-check, run the
emission visitors from the matched state, then assemble the byte list.
When no candidate matches, raise `InvalidInstruction`. -/
def EncodeInstruction (instr : Instruction) (addr : Nat) :
    Except X86Error (List Nat) :=
  match firstMatch instr (mnem_to_encodings instr.mnem) with
  | none => .error .invalidInstruction
  | some (e, v) => do
    let st ← encVisitOps addr (initState instr e v) instr.ops e.ops
    .ok (assemble st)

/-! ## Claim-side definitions

Definitions in this section restate parts of the specification's claims in
order to compare them against the embedded code; they are not part of the
embedding of the source. -/

/-- The segment-override prefix bytes of an encoder state, as the claimed
canonical output order names them. -/
def segBytes (st : EncState) : List Nat :=
  match st.segpfx with
  | some s => [PrefixOfSeg s]
  | none => []

/-- The address-size prefix bytes (claimed canonical output order). -/
def addrBytes (st : EncState) : List Nat :=
  if st.addrpfx then [0x67] else []

/-- The operand-size prefix bytes (claimed canonical output order). -/
def sizeBytes (st : EncState) : List Nat :=
  if st.sizepfx then [0x66] else []

/-- The group-1 prefix bytes (claimed canonical output order). -/
def group1Bytes (st : EncState) : List Nat :=
  match st.group1pfx with
  | some b => [b]
  | none => []

/-- The ModR/M (+SIB +displacement) bytes (claimed canonical output
order). -/
def modrmBytes (st : EncState) : List Nat :=
  match st.modrm with
  | some m => m.Encode
  | none => []

/-- The predicted instruction length the code uses for a `JccTarget`
displacement: one byte per required prefix, the stem length, and always 4
for the immediate term (the long form), regardless of the width actually
emitted. -/
def predictedJccLen (st : EncState) : Nat :=
  (if st.segpfx ≠ none then 1 else 0) + (if st.sizepfx then 1 else 0)
    + (if st.addrpfx then 1 else 0) + st.stem.length + 4

/-- The predicted instruction length claim C4 asserts: one byte per
required prefix, the stem length, and the width in bytes of the emitted
immediate — 2 under the address-size prefix, 4 otherwise. -/
def claimedJccLen (st : EncState) : Nat :=
  (if st.segpfx ≠ none then 1 else 0) + (if st.sizepfx then 1 else 0)
    + (if st.addrpfx then 1 else 0) + st.stem.length
    + (if st.addrpfx then 2 else 4)

/-- The displacement claim C4 asserts: `(taken − (addr + claimedJccLen))
mod 2^32`. -/
def claimedJccDisp (st : EncState) (addr taken : Nat) : Nat :=
  (((taken : Int) - ((addr : Int) + (claimedJccLen st : Int))) % (2 ^ 32 : Int)).toNat

/-- Check every operand against its abstract operand type, collecting the
per-operand `TypeCheckInfo` records (`None` as soon as one operand fails). -/
def checkAll : List AOT → List Operand → Option (List TypeCheckInfo)
  | [], [] => some []
  | a :: as_, o :: os => do
    let t ← check a o
    let ts ← checkAll as_ os
    some (t :: ts)
  | _, _ => none

/-- One field of the `TypeCheckInfo` reduction: fold `opcheck` over the
per-operand values of that field. -/
def foldField {α : Type} [DecidableEq α] :
    Option α → List (Option α) → Except Unit (Option α)
  | acc, [] => .ok acc
  | acc, x :: xs =>
    match opcheck acc x with
    | .error e => .error e
    | .ok y => foldField y xs

/-- The reduction loop of `TypeCheckInstruction_exn` on already-computed
`TypeCheckInfo` records. -/
def reduceSeq : Option TypeCheckInfo → List TypeCheckInfo →
    Except Unit TypeCheckInfo
  | some t, [] => .ok t
  | none, [] => .error ()
  | none, t :: ts => reduceSeq (some t) ts
  | some lt, t :: ts =>
    match reduce_typeinfo lt t with
    | .error e => .error e
    | .ok r => reduceSeq (some r) ts

/-- Combine the three per-field reductions into one `TypeCheckInfo`
result (any field conflict fails the candidate). -/
def combineFields (a b : Except Unit (Option Bool))
    (c : Except Unit (Option SegReg)) : Except Unit TypeCheckInfo := do
  let x ← a
  let y ← b
  let z ← c
  pure ⟨x, y, z⟩

/-- Claim C1's example instruction: an `ADD` whose second operand is a
32-bit immediate that fits in a signed 8-bit value. -/
def addExC1 : Instruction := ⟨none, .Add, [.Gd .Ebx, .Id 0x10]⟩

/-- The encoder state reaching `visit_Immediate_JccTarget` with the
address-size prefix required and a one-byte stem (claim C4's
counterexample state). -/
def stC4 : EncState := ⟨none, [0xE9], none, true, false, [], none⟩

/-- The encoder state after the matched `Add` candidate's emission on
`addExC1` (stem `0x81`, `MOD=11,R/M=EBX`, 4-byte immediate). -/
def stC3 : EncState :=
  ⟨none, [0x81], none, false, false, [0x10, 0x00, 0x00, 0x00],
    some ⟨false, 3, 0, 3, none, []⟩⟩

/-- A concrete byte stream used by witnesses: byte `i` holds
`(i + 1) % 256`. -/
def sEx : StreamObj := ⟨fun i => (i + 1) % 256, 0, 0⟩

/-! # Theorems -/

/-- Bit-or of a shifted value with a value below the shift amount is
addition: the little-endian composition lemma behind `Word` and `Dword`. -/
theorem lorTwoPow (k : Nat) : ∀ a b : Nat, a < 2 ^ k →
    (b <<< k) ||| a = b * 2 ^ k + a := by
  induction k with
  | zero =>
    intro a b h
    have ha : a = 0 := by omega
    subst ha
    simp [Nat.shiftLeft_eq]
  | succ k ih =>
    intro a b h
    have ha2 : a / 2 < 2 ^ k := by
      have hp : 2 ^ (k + 1) = 2 ^ k * 2 := by ring
      omega
    have h1 : b <<< (k + 1) = Nat.bit false (b <<< k) := by
      simp [Nat.bit, Nat.shiftLeft_succ, Nat.two_mul]
    have h2 : a = Nat.bit (a % 2 == 1) (a / 2) := by
      rcases Nat.mod_two_eq_zero_or_one a with h3 | h3 <;>
        simp [Nat.bit, h3] <;> omega
    rw [h1, h2, Nat.lor_bit]
    have h4 := ih (a / 2) b ha2
    rcases Nat.mod_two_eq_zero_or_one a with h3 | h3 <;>
      simp [Nat.bit, h3, h4] <;> ring_nf

/-- `Byte` succeeds while fewer than 16 bytes have been consumed since the
last `SetPos`. -/
theorem Byte_ok (s : StreamObj) (h : s.pos - s.origpos < 16) :
    s.Byte = .ok (s.bytes s.pos, { s with pos := s.pos + 1 }) := by
  unfold StreamObj.Byte
  rw [if_neg (by omega)]

/-- Reading runs of bytes succeeds as long as the run stays within the
16-byte window the guard actually enforces. -/
theorem readBytes_ok : ∀ (n : Nat) (s : StreamObj), s.origpos ≤ s.pos →
    s.pos - s.origpos + n ≤ 16 → (s.ReadBytes n).isOk = true := by
  intro n
  induction n with
  | zero => intro s h1 h2; rfl
  | succ n ih =>
    intro s h1 h2
    have hih := ih { s with pos := s.pos + 1 } (by simp; omega) (by simp; omega)
    rw [StreamObj.ReadBytes, Byte_ok s (by omega)]
    cases hrec : StreamObj.ReadBytes { s with pos := s.pos + 1 } n with
    | error e => rw [hrec] at hih; simp [Except.isOk, Except.toBool] at hih
    | ok p =>
      simp [bind, Except.bind, hrec, Except.isOk, Except.toBool]

/-- C2: the claim says any `Byte` call that would read the 16th byte since
the last `SetPos` raises `InvalidInstruction`; the guard
`pos - origpos >= 16` in the source in fact lets the 16th read succeed on
every stream (first conjunct) and only fails the 17th (second conjunct,
at a concrete stream) — an off-by-one against the "at most 15 bytes"
comment above the guard. -/
theorem C2_sixteenth_byte_succeeds :
    (∀ (s : StreamObj) (ea : Nat),
      ((s.SetPos ea).ReadBytes 16).isOk = true) ∧
    (sEx.SetPos 0).ReadBytes 17 = .error .invalidInstruction := by
  constructor
  · intro s ea
    exact readBytes_ok 16 (s.SetPos ea) (by simp [StreamObj.SetPos])
      (by simp [StreamObj.SetPos])
  · rfl

/-- C10: constructing a memory expression normalizes a zero (or absent)
displacement to `None`: no constructed `Mem16`/`Mem32` has `Disp` equal to
zero, and `[reg+0]` is structurally equal to `[reg]`. -/
theorem C10_zero_disp_normalized :
    (∀ (seg : SegReg) (size : MemSize) (b i : Option R16) (d : Option Nat),
      (mkMem16 seg size b i d).disp ≠ some 0 ∧
      mkMem16 seg size b i (some 0) = mkMem16 seg size b i none) ∧
    (∀ (seg : SegReg) (size : MemSize) (b i : Option R32) (sc : Nat)
        (d : Option Nat),
      (mkMem32 seg size b i sc d).disp ≠ some 0 ∧
      mkMem32 seg size b i sc (some 0) = mkMem32 seg size b i sc none) := by
  refine ⟨fun seg size b i d => ⟨?_, ?_⟩, fun seg size b i sc d => ⟨?_, ?_⟩⟩
  · rcases d with _ | n
    · simp [mkMem16, normDisp]
    · rcases eq_or_ne n 0 with h | h <;> simp [mkMem16, normDisp, h]
  · simp [mkMem16, normDisp]
  · rcases d with _ | n
    · simp [mkMem32, normDisp]
    · rcases eq_or_ne n 0 with h | h <;> simp [mkMem32, normDisp, h]
  · simp [mkMem32, normDisp]

/-- C9: `Word` returns the little-endian 16-bit value of the next two
bytes (first byte low) and `Dword` the little-endian 32-bit value of the
next four, both by successive `Byte` calls, whenever the reads stay inside
the window the stream permits. -/
theorem C9_word_dword_little_endian (s : StreamObj)
    (hle : s.origpos ≤ s.pos) (hbytes : ∀ i, s.bytes i < 256) :
    (s.pos - s.origpos + 2 ≤ 16 →
      s.Word = .ok
        (s.bytes s.pos + s.bytes (s.pos + 1) * 2 ^ 8,
          { s with pos := s.pos + 2 })) ∧
    (s.pos - s.origpos + 4 ≤ 16 →
      s.Dword = .ok
        (s.bytes s.pos + s.bytes (s.pos + 1) * 2 ^ 8
            + s.bytes (s.pos + 2) * 2 ^ 16 + s.bytes (s.pos + 3) * 2 ^ 24,
          { s with pos := s.pos + 4 })) := by
  have hword : ∀ t : StreamObj, t.origpos ≤ t.pos → t.pos - t.origpos + 2 ≤ 16 →
      t.bytes = s.bytes →
      t.Word = .ok (t.bytes t.pos + t.bytes (t.pos + 1) * 2 ^ 8,
        { t with pos := t.pos + 2 }) := by
    intro t h1 h2 hbt
    unfold StreamObj.Word
    rw [Byte_ok t (by omega)]
    simp only [bind, Except.bind]
    rw [Byte_ok { t with pos := t.pos + 1 } (by simp; omega)]
    simp only []
    rw [lorTwoPow 8 (t.bytes t.pos) (t.bytes (t.pos + 1))
      (by rw [hbt]; simpa using hbytes t.pos)]
    have hp : t.pos + 1 + 1 = t.pos + 2 := rfl
    rw [Nat.add_comm (t.bytes (t.pos + 1) * 2 ^ 8) (t.bytes t.pos)]
  constructor
  · intro h2
    exact hword s hle h2 rfl
  · intro h4
    unfold StreamObj.Dword
    rw [hword s hle (by omega) rfl]
    simp only [bind, Except.bind]
    rw [hword { s with pos := s.pos + 2 } (by simp; omega) (by simp; omega) rfl]
    simp only []
    rw [lorTwoPow 16 (s.bytes s.pos + s.bytes (s.pos + 1) * 2 ^ 8)
      (s.bytes (s.pos + 2) + s.bytes (s.pos + 3) * 2 ^ 8)
      (by have hb0 := hbytes s.pos; have hb1 := hbytes (s.pos + 1); omega)]
    have hgoal : (s.bytes (s.pos + 2) + s.bytes (s.pos + 3) * 2 ^ 8) * 2 ^ 16
        + (s.bytes s.pos + s.bytes (s.pos + 1) * 2 ^ 8)
        = s.bytes s.pos + s.bytes (s.pos + 1) * 2 ^ 8
            + s.bytes (s.pos + 2) * 2 ^ 16 + s.bytes (s.pos + 3) * 2 ^ 24 := by
      ring
    rw [hgoal]

/-- C9 witness: the theorem applied to the concrete stream `sEx`. -/
theorem C9_witness :
    sEx.Word = .ok
      (sEx.bytes sEx.pos + sEx.bytes (sEx.pos + 1) * 2 ^ 8,
        { sEx with pos := sEx.pos + 2 }) :=
  (C9_word_dword_little_endian sEx (by decide)
    (fun i => Nat.mod_lt _ (by norm_num))).1 (by decide)

/-- C5: when the selected encoding requires the address-size prefix and
the `JccTarget`'s taken address exceeds `0xFFFF`, emission fails (the
exception surfacing as `InvalidInstruction` at the API boundary per spec
§7, the exception classes living outside the provided sources). -/
theorem C5_jcc_addrpfx_overflow (st : EncState) (addr taken : Nat)
    (h1 : st.addrpfx = true) (h2 : 0xFFFF < taken) :
    visit_Immediate_JccTarget st addr taken = .error .invalidInstruction := by
  unfold visit_Immediate_JccTarget
  rw [if_pos (by exact ⟨by simp [h1], h2⟩)]

/-- C5 witness: the theorem applied at the concrete state `stC4` and a
target above `0xFFFF`. -/
theorem C5_witness :
    visit_Immediate_JccTarget stC4 0 0x10000 = .error .invalidInstruction :=
  C5_jcc_addrpfx_overflow stC4 0 0x10000 (by rfl) (by norm_num)

/-- C4 counterexample: at the concrete state `stC4` (address-size prefix
required, stem `E9`, no other prefixes) encoding target `0x100` at address
0 emits the displacement bytes `[0xFA, 0x00]` — computed with the length
term always 4 — whereas the claim's formula (immediate width 2 in the
predicted length) yields `[0xFC, 0x00]`. -/
theorem C4_counterexample :
    visit_Immediate_JccTarget stC4 0 0x100
      = .ok { stC4 with immediates := [0xFA, 0x00] } ∧
    little_endian_bytes (claimedJccDisp stC4 0 0x100) 2 = [0xFC, 0x00] ∧
    ([0xFA, 0x00] : List Nat) ≠ [0xFC, 0x00] := by
  refine ⟨by rfl, by rfl, by decide⟩

/-- C4 (amended): the emitted `JccTarget` displacement is the unique
residue modulo `2^32` of `taken − (addr + L)` where `L` counts one byte
per required prefix, the stem length, and always 4 for the immediate term
(the long form), and it is emitted little-endian at 2 bytes when the
address-size prefix is required, 4 otherwise. -/
theorem C4_jcc_long_form (st : EncState) (addr taken : Nat)
    (h : ¬(st.addrpfx = true ∧ 0xFFFF < taken)) :
    ∃ d : Nat, d < 2 ^ 32 ∧
      ((d : Int) - ((taken : Int) - ((addr : Int) + (predictedJccLen st : Int))))
          % (2 ^ 32 : Int) = 0 ∧
      visit_Immediate_JccTarget st addr taken
        = .ok (st.AppendImmediate d (if st.addrpfx then 2 else 4)) := by
  set x : Int := (taken : Int) - ((addr : Int) + (predictedJccLen st : Int)) with hx
  have hm : (0 : Int) < 2 ^ 32 := by norm_num
  have hnn : (0 : Int) ≤ x % 2 ^ 32 := Int.emod_nonneg x (by norm_num)
  refine ⟨(x % 2 ^ 32).toNat, ?_, ?_, ?_⟩
  · have hlt : x % 2 ^ 32 < 2 ^ 32 := Int.emod_lt_of_pos x hm
    omega
  · rw [Int.toNat_of_nonneg hnn, Int.sub_emod, Int.emod_emod_of_dvd x dvd_rfl,
      Int.sub_self, Int.zero_emod]
  · unfold visit_Immediate_JccTarget
    rw [if_neg (by simpa using h)]
    rw [hx]
    rfl

/-- C4 witness: the amended theorem applied at `stC4`, target `0x100`,
address 0. -/
theorem C4_witness :
    ∃ d : Nat, d < 2 ^ 32 ∧
      ((d : Int) - ((0x100 : Nat) - ((0 : Nat) + (predictedJccLen stC4 : Int))))
          % (2 ^ 32 : Int) = 0 ∧
      visit_Immediate_JccTarget stC4 0 0x100
        = .ok (stC4.AppendImmediate d (if stC4.addrpfx then 2 else 4)) :=
  C4_jcc_long_form stC4 0 0x100 (by decide)

/-- C1 counterexample: for `ADD EBX, 0x10` — an `ADD` whose second operand
is a 32-bit immediate fitting a signed 8-bit value — the encoder selects
the `0x81` (imm32) candidate, not the `0x83` (sign-extended imm8) one,
because `ModRMGroup(0,[0x81],eEvIz)` precedes `ModRMGroup(0,[0x83],eEvIbv)`
in the `Add` row; the `0x83` candidate does type-check (third conjunct),
it is simply never reached. -/
theorem C1_counterexample :
    EncodeInstruction addExC1 0 = .ok [0x81, 0xC3, 0x10, 0x00, 0x00, 0x00] ∧
    (firstMatch addExC1 (mnem_to_encodings .Add)).map Prod.fst
      = some (ModRMGroup 0 [0x81] eEvIz) ∧
    TypeCheckInstruction_opt addExC1 eEvIbv = some (false, false, none) ∧
    ModRMGroup 0 [0x81] eEvIz ≠ ModRMGroup 0 [0x83] eEvIbv := by
  refine ⟨by rfl, by rfl, by rfl, by decide⟩

/-- C1 (amended): `EncodeInstruction` tries the candidates in table order
and uses the first whose operand tuple type-checks (first conjunct, a
specification of the candidate loop); for an `ADD` whose second operand is
a 32-bit immediate fitting a signed 8-bit value the imm32 form (stem
`0x81`) is therefore selected, because it precedes the `0x83` form in the
`Add` row (second conjunct). -/
theorem C1_first_match_order :
    (∀ (instr : Instruction) (l : List X86Enc) (e : X86Enc)
        (v : Bool × Bool × Option SegReg),
      firstMatch instr l = some (e, v) →
      ∃ k, l.get? k = some e ∧
        TypeCheckInstruction_opt instr e.ops = some v ∧
        ∀ j, j < k → ∀ e2, l.get? j = some e2 →
          TypeCheckInstruction_opt instr e2.ops = none) ∧
    (firstMatch addExC1 (mnem_to_encodings .Add)).map Prod.fst
      = some (ModRMGroup 0 [0x81] eEvIz) := by
  constructor
  · intro instr l
    induction l with
    | nil => intro e v h; simp [firstMatch] at h
    | cons x xs ih =>
      intro e v h
      rw [firstMatch] at h
      cases hcx : TypeCheckInstruction_opt instr x.ops with
      | none =>
        rw [hcx] at h
        obtain ⟨k, hk, hv, hbefore⟩ := ih e v h
        refine ⟨k + 1, by simpa using hk, hv, ?_⟩
        intro j hj e2 hj2
        cases j with
        | zero =>
          simp only [List.get?] at hj2
          cases hj2
          exact hcx
        | succ j =>
          exact hbefore j (by omega) e2 (by simpa using hj2)
      | some v0 =>
        rw [hcx] at h
        cases h
        refine ⟨0, by simp, hcx, ?_⟩
        intro j hj
        exact absurd hj (Nat.not_lt_zero j)
  · rfl

/-- C1 witness: the first-match specification applied to `addExC1` and the
`Add` table row. -/
theorem C1_witness :
    ∃ k, (mnem_to_encodings .Add).get? k = some (ModRMGroup 0 [0x81] eEvIz) ∧
      TypeCheckInstruction_opt addExC1 (ModRMGroup 0 [0x81] eEvIz).ops
        = some (false, false, none) ∧
      ∀ j, j < k → ∀ e2, (mnem_to_encodings .Add).get? j = some e2 →
        TypeCheckInstruction_opt addExC1 e2.ops = none :=
  C1_first_match_order.1 addExC1 (mnem_to_encodings .Add)
    (ModRMGroup 0 [0x81] eEvIz) (false, false, none) (by rfl)

/-- The byte list `assemble` produces is exactly the canonical
concatenation of its seven segments. -/
theorem assemble_decomp (st : EncState) :
    assemble st = segBytes st ++ addrBytes st ++ sizeBytes st
      ++ group1Bytes st ++ st.stem ++ modrmBytes st ++ st.immediates := by
  obtain ⟨g1, stem, seg, ap, sp, imm, mrm⟩ := st
  simp only [assemble, segBytes, addrBytes, sizeBytes, group1Bytes,
    modrmBytes]
  cases seg <;> cases g1 <;> cases mrm <;> cases ap <;> cases sp <;>
    rcases eq_or_ne imm ([] : List Nat) with h | h <;> simp [h]

/-- C3: every byte list `EncodeInstruction` returns is the concatenation,
in this fixed order, of the segment-override prefix (if any), the `0x67`
address-size prefix (if required), the `0x66` operand-size prefix (if
required), the group-1 prefix byte (if any), the stem, the ModR/M (+SIB,
+displacement) bytes (if present), and the immediate bytes (if present),
where the parts are those of the state the matched candidate's emission
produced. -/
theorem C3_canonical_order (instr : Instruction) (addr : Nat)
    (e : X86Enc) (v : Bool × Bool × Option SegReg) (st : EncState)
    (h1 : firstMatch instr (mnem_to_encodings instr.mnem) = some (e, v))
    (h2 : encVisitOps addr (initState instr e v) instr.ops e.ops = .ok st) :
    EncodeInstruction instr addr
      = .ok (segBytes st ++ addrBytes st ++ sizeBytes st ++ group1Bytes st
          ++ st.stem ++ modrmBytes st ++ st.immediates) := by
  unfold EncodeInstruction
  rw [h1]
  simp only [bind, Except.bind, h2]
  rw [assemble_decomp]

/-- C3 witness: the theorem applied to the concrete `ADD EBX, 0x10`
encoding. -/
theorem C3_witness :
    EncodeInstruction addExC1 0
      = .ok (segBytes stC3 ++ addrBytes stC3 ++ sizeBytes stC3
          ++ group1Bytes stC3 ++ stC3.stem ++ modrmBytes stC3
          ++ stC3.immediates) :=
  C3_canonical_order addExC1 0 (ModRMGroup 0 [0x81] eEvIz)
    (false, false, none) stC3 (by rfl) (by rfl)

/-- A concrete operand's immediate value lies within its width (the
guardedness `X86.py`'s `GuardedInteger` maintains at runtime). -/
def immWithinWidth : Operand → Prop
  | .Ib v => v ≤ 0xFF
  | .Iw v => v ≤ 0xFFFF
  | .Id v => v ≤ 0xFFFFFFFF
  | _ => True

/-- C7: an operand is accepted against `SignedImm` of the `Iw` (16-bit)
archetype iff it is a 16-bit immediate with value in
`[0,0x7F] ∪ [0xFF80,0xFFFF]`, and against `SignedImm` of the `Id` (32-bit)
archetype iff it is a 32-bit immediate with value in
`[0,0x7F] ∪ [0xFFFFFF80,0xFFFFFFFF]` (for any `check_sizes` mode). -/
theorem C7_signed_imm_ranges (cs : Bool) (op : Operand)
    (h : immWithinWidth op) :
    ((tcVisit cs op (.SignedImm .Iw)).isSome ↔
      ∃ v, op = .Iw v ∧ (v ≤ 0x7F ∨ (0xFF80 ≤ v ∧ v ≤ 0xFFFF))) ∧
    ((tcVisit cs op (.SignedImm .Id)).isSome ↔
      ∃ v, op = .Id v ∧ (v ≤ 0x7F ∨ (0xFFFFFF80 ≤ v ∧ v ≤ 0xFFFFFFFF))) := by
  cases op with
  | Iw v =>
    simp only [immWithinWidth] at h
    refine ⟨?_, by simp [tcVisit]⟩
    simp only [tcVisit]
    split
    next hcond =>
      simp only [Option.isSome_some, true_iff]
      exact ⟨v, rfl, by omega⟩
    next hcond =>
      simp only [Option.isSome_none, Bool.false_eq_true, false_iff]
      rintro ⟨w, hw, hrange⟩
      cases hw
      omega
  | Id v =>
    simp only [immWithinWidth] at h
    refine ⟨by simp [tcVisit], ?_⟩
    simp only [tcVisit]
    split
    next hcond =>
      simp only [Option.isSome_some, true_iff]
      exact ⟨v, rfl, by omega⟩
    next hcond =>
      simp only [Option.isSome_none, Bool.false_eq_true, false_iff]
      rintro ⟨w, hw, hrange⟩
      cases hw
      omega
  | Gb r => exact ⟨by simp [tcVisit], by simp [tcVisit]⟩
  | Gw r => exact ⟨by simp [tcVisit], by simp [tcVisit]⟩
  | Gd r => exact ⟨by simp [tcVisit], by simp [tcVisit]⟩
  | Ib v => exact ⟨by simp [tcVisit], by simp [tcVisit]⟩
  | M16 m => exact ⟨by simp [tcVisit], by simp [tcVisit]⟩
  | M32 m => exact ⟨by simp [tcVisit], by simp [tcVisit]⟩
  | JccT t nt => exact ⟨by simp [tcVisit], by simp [tcVisit]⟩
  | AP16 sg off => exact ⟨by simp [tcVisit], by simp [tcVisit]⟩
  | AP32 sg off => exact ⟨by simp [tcVisit], by simp [tcVisit]⟩

/-- C7 witness: the theorem applied at a 32-bit immediate in the
sign-extension range. -/
theorem C7_witness :
    ((tcVisit true (.Id 0xFFFFFFF0) (.SignedImm .Iw)).isSome ↔
      ∃ v, (Operand.Id 0xFFFFFFF0) = .Iw v
        ∧ (v ≤ 0x7F ∨ (0xFF80 ≤ v ∧ v ≤ 0xFFFF))) ∧
    ((tcVisit true (.Id 0xFFFFFFF0) (.SignedImm .Id)).isSome ↔
      ∃ v, (Operand.Id 0xFFFFFFF0) = .Id v
        ∧ (v ≤ 0x7F ∨ (0xFFFFFF80 ≤ v ∧ v ≤ 0xFFFFFFFF))) :=
  C7_signed_imm_ranges true (.Id 0xFFFFFFF0) (by norm_num [immWithinWidth])

/-- `lenient_sizes.contains` agrees with list membership on the AOT
enumeration. -/
theorem contains_lenient (aot : AOT) :
    lenient_sizes.contains aot = true ↔ aot ∈ lenient_sizes := by
  cases aot <;> decide

/-- The memory branch of `visit_RegOrMem` on a `Mem16`: accepted iff the
sizes agree or `check_sizes` is off. -/
theorem tcVisit_mem16_regOrMem (cs : Bool) (r : Option RegClass)
    (ms : MemSize) (mm : Mem16) :
    (tcVisit cs (.M16 mm) (.RegOrMem r (some ms))).isSome
      ↔ (ms = mm.size ∨ cs = false) := by
  simp only [tcVisit]
  rw [if_neg (by cases r <;> simp [classOf])]
  split
  next hc => exact iff_of_true rfl hc
  next hc => exact iff_of_false (by simp) hc

/-- The memory branch of `visit_RegOrMem` on a `Mem32`: accepted iff the
sizes agree or `check_sizes` is off. -/
theorem tcVisit_mem32_regOrMem (cs : Bool) (r : Option RegClass)
    (ms : MemSize) (mm : Mem32) :
    (tcVisit cs (.M32 mm) (.RegOrMem r (some ms))).isSome
      ↔ (ms = mm.size ∨ cs = false) := by
  simp only [tcVisit]
  rw [if_neg (by cases r <;> simp [classOf])]
  split
  next hc => exact iff_of_true rfl hc
  next hc => exact iff_of_false (by simp) hc

/-- `check` on a `Mem16` against a `RegOrMem` abstract operand type:
accepted iff the type is size-lenient or the sizes agree. -/
theorem check_mem16_char (aot : AOT) (r : Option RegClass) (ms : MemSize)
    (h : AOTtoAOTDL aot = .RegOrMem r (some ms)) (mm : Mem16) :
    (check aot (.M16 mm)).isSome ↔ (aot ∈ lenient_sizes ∨ ms = mm.size) := by
  unfold check
  rw [h, tcVisit_mem16_regOrMem]
  rw [← contains_lenient]
  cases hc : lenient_sizes.contains aot <;> simp [hc]

/-- `check` on a `Mem32` against a `RegOrMem` abstract operand type:
accepted iff the type is size-lenient or the sizes agree. -/
theorem check_mem32_char (aot : AOT) (r : Option RegClass) (ms : MemSize)
    (h : AOTtoAOTDL aot = .RegOrMem r (some ms)) (mm : Mem32) :
    (check aot (.M32 mm)).isSome ↔ (aot ∈ lenient_sizes ∨ ms = mm.size) := by
  unfold check
  rw [h, tcVisit_mem32_regOrMem]
  rw [← contains_lenient]
  cases hc : lenient_sizes.contains aot <;> simp [hc]

/-- Common step for the `RegOrMem` rows of `AOTtoAOTDL`. -/
theorem C8_aux (aot : AOT) (r : Option RegClass) (ms : MemSize)
    (r2 : Option RegClass) (m2 : Option MemSize)
    (hdef : AOTtoAOTDL aot = .RegOrMem r (some ms))
    (h : AOTtoAOTDL aot = .RegOrMem r2 m2) :
    (∀ mm : Mem16, (check aot (.M16 mm)).isSome
        ↔ (aot ∈ lenient_sizes ∨ m2 = some mm.size)) ∧
    (∀ mm : Mem32, (check aot (.M32 mm)).isSome
        ↔ (aot ∈ lenient_sizes ∨ m2 = some mm.size)) := by
  have hm : m2 = some ms := by
    rw [hdef] at h
    exact ((AOTDL.RegOrMem.inj h).2).symm
  subst hm
  exact ⟨fun mm => by rw [check_mem16_char aot r ms hdef mm]; simp,
         fun mm => by rw [check_mem32_char aot r ms hdef mm]; simp⟩

/-- C8: for an abstract operand type whose AOTDL is `RegOrMem`, `check`
accepts a memory operand iff the type is one of the size-lenient three
(`FPEnv`, `FPEnvLow`, `SimdState` — any size tag accepted) or the
operand's size tag equals the type's memory size. -/
theorem C8_size_leniency (aot : AOT) (r : Option RegClass)
    (m : Option MemSize) (h : AOTtoAOTDL aot = .RegOrMem r m) :
    (∀ mm : Mem16, (check aot (.M16 mm)).isSome
        ↔ (aot ∈ lenient_sizes ∨ m = some mm.size)) ∧
    (∀ mm : Mem32, (check aot (.M32 mm)).isSome
        ↔ (aot ∈ lenient_sizes ∨ m = some mm.size)) := by
  cases aot with
  | OEb => exact C8_aux _ (some .Gb) .Mb _ _ rfl h
  | OFPEnv => exact C8_aux _ none .Mb _ _ rfl h
  | OFPEnvLow => exact C8_aux _ none .Mb _ _ rfl h
  | OSimdState => exact C8_aux _ none .Mb _ _ rfl h
  | OMd => exact C8_aux _ none .Md _ _ rfl h
  | OMq => exact C8_aux _ none .Mq _ _ rfl h
  | OGb => exact absurd h (by simp [AOTtoAOTDL])
  | OEv => exact absurd h (by simp [AOTtoAOTDL])
  | OGv => exact absurd h (by simp [AOTtoAOTDL])
  | OAL => exact absurd h (by simp [AOTtoAOTDL])
  | OrAX => exact absurd h (by simp [AOTtoAOTDL])
  | OIb => exact absurd h (by simp [AOTtoAOTDL])
  | OIz => exact absurd h (by simp [AOTtoAOTDL])
  | OIbv => exact absurd h (by simp [AOTtoAOTDL])
  | OJz => exact absurd h (by simp [AOTtoAOTDL])

/-- C8 witness: the theorem applied at `FPEnv` with a `Mem16` of a
mismatched size tag (accepted anyway). -/
theorem C8_witness :
    (check .OFPEnv (.M16 ⟨.DS, .Mq, none, none, none⟩)).isSome
      ↔ (AOT.OFPEnv ∈ lenient_sizes
          ∨ some MemSize.Mb
              = some (Mem16.size ⟨.DS, .Mq, none, none, none⟩)) :=
  (C8_size_leniency .OFPEnv none (some .Mb) (by rfl)).1
    ⟨.DS, .Mq, none, none, none⟩

/-- Folding `opcheck` from a concrete seed succeeds iff every element
agrees with the seed, and then returns the seed. -/
theorem foldField_some_ok {α : Type} [DecidableEq α] :
    ∀ (l : List (Option α)) (v : α) (r : Option α),
    foldField (some v) l = .ok r
      ↔ (r = some v ∧ ∀ x ∈ l, x = none ∨ x = some v) := by
  intro l
  induction l with
  | nil =>
    intro v r
    simp [foldField, eq_comm]
  | cons x xs ih =>
    intro v r
    cases x with
    | none =>
      simp only [foldField, opcheck]
      rw [ih]
      simp
    | some y =>
      rcases eq_or_ne v y with hvy | hvy
      · subst hvy
        simp only [foldField, opcheck, if_true]
        rw [ih]
        simp
      · simp only [foldField, opcheck]
        rw [if_neg hvy]
        refine iff_of_false (by simp) ?_
        rintro ⟨hr, hall⟩
        rcases hall (some y) (by simp) with hcl | hcl
        · cases hcl
        · cases hcl
          exact hvy rfl

/-- Folding `opcheck` from a concrete seed fails iff some element holds a
different concrete value. -/
theorem foldField_some_error {α : Type} [DecidableEq α] :
    ∀ (l : List (Option α)) (v : α),
    foldField (some v) l = .error ()
      ↔ ∃ w, some w ∈ l ∧ w ≠ v := by
  intro l
  induction l with
  | nil =>
    intro v
    simp [foldField]
  | cons x xs ih =>
    intro v
    cases x with
    | none =>
      simp only [foldField, opcheck]
      rw [ih]
      simp
    | some y =>
      rcases eq_or_ne v y with hvy | hvy
      · subst hvy
        simp only [foldField, opcheck, if_true]
        rw [ih]
        constructor
        · rintro ⟨w, hw, hwv⟩
          exact ⟨w, by simp [hw], hwv⟩
        · rintro ⟨w, hw, hwv⟩
          rcases List.mem_cons.mp hw with hcl | hcl
          · cases hcl
            exact absurd rfl hwv
          · exact ⟨w, hcl, hwv⟩
      · simp only [foldField, opcheck]
        rw [if_neg hvy]
        refine iff_of_true (by simp) ⟨y, by simp, Ne.symm hvy⟩

/-- Folding `opcheck` from the empty seed fails iff the list holds two
distinct concrete values. -/
theorem foldField_none_error {α : Type} [DecidableEq α] :
    ∀ l : List (Option α),
    foldField none l = .error ()
      ↔ ∃ v w : α, v ≠ w ∧ some v ∈ l ∧ some w ∈ l := by
  intro l
  induction l with
  | nil => simp [foldField]
  | cons x xs ih =>
    cases x with
    | none =>
      simp only [foldField, opcheck]
      rw [ih]
      simp
    | some y =>
      have hstep : foldField (none : Option α) (some y :: xs)
          = foldField (some y) xs := rfl
      rw [hstep, foldField_some_error]
      constructor
      · rintro ⟨w, hw, hwy⟩
        exact ⟨y, w, Ne.symm hwy, by simp, by simp [hw]⟩
      · rintro ⟨v, w, hvw, hv, hw⟩
        rcases List.mem_cons.mp hv with hcv | hcv <;>
          rcases List.mem_cons.mp hw with hcw | hcw
        · cases hcv
          cases hcw
          exact absurd rfl hvw
        · cases hcv
          exact ⟨w, hcw, fun hc => hvw (by rw [hc])⟩
        · cases hcw
          exact ⟨v, hcv, fun hc => hvw (by rw [hc])⟩
        · rcases eq_or_ne v y with hvy | hvy
          · subst hvy
            exact ⟨w, hcw, fun hc => hvw (by rw [hc])⟩
          · exact ⟨v, hcv, hvy⟩

/-- When folding `opcheck` from the empty seed succeeds, the result is
empty iff no element was concrete, and holds a value iff some element
holds that value. -/
theorem foldField_none_ok {α : Type} [DecidableEq α] :
    ∀ (l : List (Option α)) (r : Option α),
    foldField none l = .ok r →
      ((r = none ↔ ∀ x ∈ l, x = none) ∧ ∀ v, (r = some v ↔ some v ∈ l)) := by
  intro l
  induction l with
  | nil =>
    intro r h
    simp only [foldField] at h
    cases h
    simp
  | cons x xs ih =>
    intro r h
    cases x with
    | none =>
      have hstep : foldField (none : Option α) (none :: xs)
          = foldField none xs := rfl
      rw [hstep] at h
      obtain ⟨h1, h2⟩ := ih r h
      constructor
      · rw [h1]; simp
      · intro v; rw [h2 v]; simp
    | some y =>
      have hstep : foldField (none : Option α) (some y :: xs)
          = foldField (some y) xs := rfl
      rw [hstep] at h
      obtain ⟨hr, hagree⟩ := (foldField_some_ok xs y r).mp h
      subst hr
      constructor
      · simp
      · intro v
        constructor
        · intro hv
          cases hv
          simp
        · intro hv
          rcases List.mem_cons.mp hv with hcv | hcv
          · cases hcv
            rfl
          · rcases hagree (some v) hcv with hcl | hcl
            · cases hcl
            · cases hcl
              rfl

/-- `combineFields` fails exactly when one of the three field reductions
fails. -/
theorem combineFields_error_iff (a b : Except Unit (Option Bool))
    (c : Except Unit (Option SegReg)) :
    combineFields a b c = .error ()
      ↔ (a = .error () ∨ b = .error () ∨ c = .error ()) := by
  cases a <;> cases b <;> cases c <;>
    simp [combineFields, bind, Except.bind, pure, Except.pure]

/-- `combineFields` succeeds exactly when the three field reductions
succeed with the result's fields. -/
theorem combineFields_ok_iff (a b : Except Unit (Option Bool))
    (c : Except Unit (Option SegReg)) (t : TypeCheckInfo) :
    combineFields a b c = .ok t
      ↔ (a = .ok t.sizeo ∧ b = .ok t.addro ∧ c = .ok t.sego) := by
  obtain ⟨s1, a1, g1⟩ := t
  cases a <;> cases b <;> cases c <;>
    simp [combineFields, bind, Except.bind, pure, Except.pure,
      TypeCheckInfo.mk.injEq, and_assoc, eq_comm]

/-- The reduction loop equals the three independent field folds combined:
`reduce_typeinfo` accumulates `sizeo`, `addro` and `sego` separately and
any field conflict aborts the candidate. -/
theorem reduceSeq_fields :
    ∀ (ts : List TypeCheckInfo) (t : TypeCheckInfo),
    reduceSeq (some t) ts
      = combineFields (foldField t.sizeo (ts.map TypeCheckInfo.sizeo))
          (foldField t.addro (ts.map TypeCheckInfo.addro))
          (foldField t.sego (ts.map TypeCheckInfo.sego)) := by
  intro ts
  induction ts with
  | nil =>
    intro t
    simp [reduceSeq, foldField, combineFields, bind, Except.bind, pure,
      Except.pure]
  | cons x xs ih =>
    intro t
    simp only [reduceSeq, reduce_typeinfo, List.map_cons, foldField]
    cases hs : opcheck t.sizeo x.sizeo with
    | error e =>
      cases e
      simp [bind, Except.bind, hs, combineFields]
    | ok s =>
      cases ha : opcheck t.addro x.addro with
      | error e =>
        cases e
        simp [bind, Except.bind, hs, ha, combineFields]
        cases foldField s (List.map TypeCheckInfo.sizeo xs) <;>
          simp [bind, Except.bind]
      | ok a =>
        cases hg : opcheck t.sego x.sego with
        | error e =>
          cases e
          simp [bind, Except.bind, hs, ha, hg, combineFields]
          cases foldField s (List.map TypeCheckInfo.sizeo xs) <;>
            cases foldField a (List.map TypeCheckInfo.addro xs) <;>
              simp [bind, Except.bind]
        | ok g =>
          simp only [bind, Except.bind, hs, ha, hg, pure, Except.pure]
          show reduceSeq (some ⟨s, a, g⟩) xs = _
          rw [ih ⟨s, a, g⟩]

/-- Destructuring `checkAll` on a non-empty operand list. -/
theorem checkAll_cons (a : AOT) (as_ : List AOT) (os : List Operand)
    (tis : List TypeCheckInfo)
    (h : checkAll (a :: as_) os = some tis) :
    ∃ o os2 t ts, os = o :: os2 ∧ tis = t :: ts ∧ check a o = some t ∧
      checkAll as_ os2 = some ts := by
  cases os with
  | nil => simp [checkAll] at h
  | cons o os2 =>
    simp only [checkAll, Option.bind_eq_bind, bind, Option.bind] at h
    cases hc : check a o with
    | none => rw [hc] at h; cases h
    | some t =>
      rw [hc] at h
      cases hrest : checkAll as_ os2 with
      | none => rw [hrest] at h; cases h
      | some ts =>
        rw [hrest] at h
        cases h
        exact ⟨o, os2, t, ts, rfl, rfl, hc, hrest⟩

/-- When every operand individually type-checks, the interleaved loop of
`TypeCheckInstruction_exn` coincides with reducing the collected
`TypeCheckInfo` records. -/
theorem tcFold_eq_reduceSeq :
    ∀ (aops : List AOT) (ops : List Operand) (tis : List TypeCheckInfo)
      (acc : Option TypeCheckInfo),
    checkAll aops ops = some tis → tcFold aops ops acc = reduceSeq acc tis := by
  intro aops
  induction aops with
  | nil =>
    intro ops tis acc h
    cases ops with
    | nil =>
      simp only [checkAll] at h
      cases h
      cases acc <;> rfl
    | cons o os => simp [checkAll] at h
  | cons a as_ ih =>
    intro ops tis acc h
    obtain ⟨o, os2, t, ts, rfl, rfl, hc, hrest⟩ := checkAll_cons a as_ ops tis h
    cases acc with
    | none =>
      simp only [tcFold, hc, reduceSeq]
      exact ih os2 ts (some t) hrest
    | some lt =>
      simp only [tcFold, hc, reduceSeq]
      cases hr : reduce_typeinfo lt t with
      | error e => cases e; rfl
      | ok r => exact ih os2 ts (some r) hrest

/-- C6: with every operand individually type-checked, the instruction-level
check reduces the per-operand `TypeCheckInfo` records field by field: the
candidate fails exactly when two operands report different concrete values
in the same field (first conjunct); on success each reported override is
unset iff no operand constrained it and holds a value iff some operand
reported that value (second conjunct, with the `sizeo`/`addro` fields read
back through the `== True` collapse of the returned triple). -/
theorem C6_field_reduction (instr : Instruction) (aops : List AOT)
    (tis : List TypeCheckInfo)
    (hlen : aops.length = instr.ops.length)
    (hne : aops ≠ [])
    (hall : checkAll aops instr.ops = some tis) :
    (TypeCheckInstruction_opt instr aops = none ↔
      ((∃ v w : Bool, v ≠ w ∧ some v ∈ tis.map TypeCheckInfo.sizeo
          ∧ some w ∈ tis.map TypeCheckInfo.sizeo) ∨
       (∃ v w : Bool, v ≠ w ∧ some v ∈ tis.map TypeCheckInfo.addro
          ∧ some w ∈ tis.map TypeCheckInfo.addro) ∨
       (∃ v w : SegReg, v ≠ w ∧ some v ∈ tis.map TypeCheckInfo.sego
          ∧ some w ∈ tis.map TypeCheckInfo.sego))) ∧
    (∀ szb adb sg,
      TypeCheckInstruction_opt instr aops = some (szb, adb, sg) →
      ((szb = true ↔ some true ∈ tis.map TypeCheckInfo.sizeo) ∧
       (adb = true ↔ some true ∈ tis.map TypeCheckInfo.addro) ∧
       (sg = none ↔ ∀ x ∈ tis.map TypeCheckInfo.sego, x = none) ∧
       (∀ g, sg = some g ↔ some g ∈ tis.map TypeCheckInfo.sego))) := by
  obtain ⟨a, as_, rfl⟩ : ∃ a as_, aops = a :: as_ := by
    cases aops with
    | nil => exact absurd rfl hne
    | cons a as_ => exact ⟨a, as_, rfl⟩
  obtain ⟨o, os2, t, ts, hos, rfl, hc, hrest⟩ :=
    checkAll_cons a as_ instr.ops tis hall
  have hexn : TypeCheckInstruction_exn instr (a :: as_)
      = (match reduceSeq none (t :: ts) with
        | .error _ => .error ()
        | .ok tr =>
          .ok (tr.sizeo == some true, tr.addro == some true, tr.sego)) := by
    unfold TypeCheckInstruction_exn
    rw [if_neg (fun hcc => hcc hlen), if_neg (by simp)]
    rw [tcFold_eq_reduceSeq (a :: as_) instr.ops (t :: ts) none hall]
  have hred2 : reduceSeq (none : Option TypeCheckInfo) (t :: ts)
      = combineFields
          (foldField none ((t :: ts).map TypeCheckInfo.sizeo))
          (foldField none ((t :: ts).map TypeCheckInfo.addro))
          (foldField none ((t :: ts).map TypeCheckInfo.sego)) := by
    rw [show reduceSeq (none : Option TypeCheckInfo) (t :: ts)
        = reduceSeq (some t) ts from rfl]
    rw [reduceSeq_fields]
    rfl
  constructor
  · rw [TypeCheckInstruction_opt, hexn]
    cases hred : reduceSeq (none : Option TypeCheckInfo) (t :: ts) with
    | error e =>
      cases e
      rw [hred] at hred2
      refine iff_of_true rfl ?_
      rcases (combineFields_error_iff _ _ _).mp hred2.symm with h1 | h1 | h1
      · exact Or.inl ((foldField_none_error _).mp h1)
      · exact Or.inr (Or.inl ((foldField_none_error _).mp h1))
      · exact Or.inr (Or.inr ((foldField_none_error _).mp h1))
    | ok tr =>
      rw [hred] at hred2
      refine iff_of_false (by simp [Except.toOption]) ?_
      have hfields := (combineFields_ok_iff _ _ _ tr).mp hred2.symm
      rintro (hconf | hconf | hconf)
      · have := (foldField_none_error _).mpr hconf
        rw [hfields.1] at this
        cases this
      · have := (foldField_none_error _).mpr hconf
        rw [hfields.2.1] at this
        cases this
      · have := (foldField_none_error _).mpr hconf
        rw [hfields.2.2] at this
        cases this
  · intro szb adb sg hopt
    rw [TypeCheckInstruction_opt, hexn] at hopt
    cases hred : reduceSeq (none : Option TypeCheckInfo) (t :: ts) with
    | error e =>
      cases e
      rw [hred] at hopt
      simp [Except.toOption] at hopt
    | ok tr =>
      rw [hred] at hopt
      simp only [Except.toOption, Option.some.injEq, Prod.mk.injEq] at hopt
      obtain ⟨h1, h2, h3⟩ := hopt
      rw [hred] at hred2
      have hfields := (combineFields_ok_iff _ _ _ tr).mp hred2.symm
      have hchar1 := foldField_none_ok _ _ hfields.1
      have hchar2 := foldField_none_ok _ _ hfields.2.1
      have hchar3 := foldField_none_ok _ _ hfields.2.2
      refine ⟨?_, ?_, ?_, ?_⟩
      · rw [← h1]
        rw [show ((tr.sizeo == some true) = true) ↔ tr.sizeo = some true
          from beq_iff_eq]
        exact hchar1.2 true
      · rw [← h2]
        rw [show ((tr.addro == some true) = true) ↔ tr.addro = some true
          from beq_iff_eq]
        exact hchar2.2 true
      · rw [← h3]
        exact hchar3.1
      · intro g
        rw [← h3]
        exact hchar3.2 g

/-- C6 witness: the reduction theorem applied to `ADD EBX, 0x10` against
the `[OEv, OIz]` abstract operand list, both of whose operands report
`sizeo = some false`. -/
theorem C6_witness :
    (TypeCheckInstruction_opt addExC1 eEvIz = none ↔
      ((∃ v w : Bool, v ≠ w
          ∧ some v ∈ ([⟨some false, none, none⟩,
              ⟨some false, none, none⟩] : List TypeCheckInfo).map
                TypeCheckInfo.sizeo
          ∧ some w ∈ ([⟨some false, none, none⟩,
              ⟨some false, none, none⟩] : List TypeCheckInfo).map
                TypeCheckInfo.sizeo) ∨
       (∃ v w : Bool, v ≠ w
          ∧ some v ∈ ([⟨some false, none, none⟩,
              ⟨some false, none, none⟩] : List TypeCheckInfo).map
                TypeCheckInfo.addro
          ∧ some w ∈ ([⟨some false, none, none⟩,
              ⟨some false, none, none⟩] : List TypeCheckInfo).map
                TypeCheckInfo.addro) ∨
       (∃ v w : SegReg, v ≠ w
          ∧ some v ∈ ([⟨some false, none, none⟩,
              ⟨some false, none, none⟩] : List TypeCheckInfo).map
                TypeCheckInfo.sego
          ∧ some w ∈ ([⟨some false, none, none⟩,
              ⟨some false, none, none⟩] : List TypeCheckInfo).map
                TypeCheckInfo.sego))) ∧
    (∀ szb adb sg,
      TypeCheckInstruction_opt addExC1 eEvIz = some (szb, adb, sg) →
      ((szb = true ↔ some true ∈ ([⟨some false, none, none⟩,
            ⟨some false, none, none⟩] : List TypeCheckInfo).map
              TypeCheckInfo.sizeo) ∧
       (adb = true ↔ some true ∈ ([⟨some false, none, none⟩,
            ⟨some false, none, none⟩] : List TypeCheckInfo).map
              TypeCheckInfo.addro) ∧
       (sg = none ↔ ∀ x ∈ ([⟨some false, none, none⟩,
            ⟨some false, none, none⟩] : List TypeCheckInfo).map
              TypeCheckInfo.sego, x = none) ∧
       (∀ g, sg = some g ↔ some g ∈ ([⟨some false, none, none⟩,
            ⟨some false, none, none⟩] : List TypeCheckInfo).map
              TypeCheckInfo.sego))) :=
  C6_field_reduction addExC1 eEvIz
    [⟨some false, none, none⟩, ⟨some false, none, none⟩]
    (by rfl) (by decide) (by rfl)
